import Mathlib

/-!
Verification of the event-to-artifact pipeline of
`src/python/radar_downloader.py` (RADAR-DPC continuous downloader).

The Python program is shallowly embedded: JSON values become an inductive
type, Python dictionaries become association lists, the mutable application
state (dedup map and job queue) becomes an explicit state record threaded
through the event handler, and fallible code returns `Except`.  Wall-clock
times (`time.time()`, epoch milliseconds) are modelled as integers; JSON
numbers are modelled as integers (the claims under study never depend on a
fractional part, and the non-finite float literals `NaN` and `Infinity` are
outside the model).
-/

namespace RadarDownloader

/-- A JSON value as produced by Python `json.loads`: `null` maps to Python
`None`, booleans to `bool`, numbers to `int` (see the file comment), strings
to `str`, arrays to `list` and objects to `dict` (modelled as association
lists; `json.loads` never produces duplicate keys, so lookup of the first
match is lookup of the only match). -/
inductive JsonVal where
  | null
  | bool (b : Bool)
  | num (n : Int)
  | str (s : String)
  | arr (items : List JsonVal)
  | obj (fields : List (String × JsonVal))

/-- Python truthiness of a JSON-derived value: `None`, `False`, `0`, `""`,
`[]` and `{}` are falsy, everything else truthy. -/
def truthy : JsonVal → Bool
  | .null => false
  | .bool b => b
  | .num n => n != 0
  | .str s => s != ""
  | .arr items => !items.isEmpty
  | .obj fields => !fields.isEmpty

/-- Model of `d.get(k)` on a Python dict (first — and only — matching key). -/
def pyGet : List (String × JsonVal) → String → Option JsonVal
  | [], _ => none
  | (k, v) :: rest, key => if k = key then some v else pyGet rest key

/-- Variant of `d.get(k)` with the missing-key result `None` folded into `.null`:
`json.loads` maps JSON `null` to Python `None`, so a key bound to `null`
and an absent key are indistinguishable to the caller. -/
def pyGetD (fields : List (String × JsonVal)) (key : String) : JsonVal :=
  (pyGet fields key).getD .null

/-- Membership `k in d` on a Python dict. -/
def hasKey (fields : List (String × JsonVal)) (k : String) : Bool :=
  (pyGet fields k).isSome

/-- Python `a or b` at value level: `a` when truthy, else `b`. -/
def jor (a b : JsonVal) : JsonVal := if truthy a then a else b

/-- Test `isinstance(x, dict)`. -/
def isDict : JsonVal → Bool
  | .obj _ => true
  | _ => false

/-- Test `isinstance(x, (int, float))`.  Python `bool` is a subclass of `int`,
so booleans pass this check too. -/
def isinstanceNum : JsonVal → Bool
  | .num _ => true
  | .bool _ => true
  | _ => false

/-- A JSON number proper (spec-side notion used to compare against
the `isinstance` check of the code: booleans are not numbers). -/
def isJsonNumber : JsonVal → Bool
  | .num _ => true
  | _ => false

/-- Conversion `int(x)` on a value that passed `isinstanceNum`: identity on ints,
`True ↦ 1`, `False ↦ 0` (Python `int(True) == 1`). -/
def pyIntOf : JsonVal → Int
  | .num n => n
  | .bool b => if b then 1 else 0
  | _ => 0

/-- Python `str.upper()` restricted to its ASCII behaviour. -/
def pyUpper (s : String) : String := ⟨s.data.map Char.toUpper⟩

/-- Python `str.strip()`: whitespace removed from both ends. -/
def pyStrip (s : String) : String :=
  ⟨((s.data.dropWhile Char.isWhitespace).reverse.dropWhile Char.isWhitespace).reverse⟩

/-! Section: `PureWsClient._extract_events` (radar_downloader.py lines 181–193) -/

/-- Translation of `PureWsClient._extract_events`: a dict with a `"data"`
member that is itself a dict containing `"productType"` or `"time"` yields
the nested dict; any other dict yields itself; a list yields its dict
members; anything else yields nothing. -/
def extract_events : JsonVal → List JsonVal
  | .obj fields =>
    match pyGet fields "data" with
    | some (.obj inner) =>
      if hasKey inner "productType" || hasKey inner "time" then [.obj inner]
      else [.obj fields]
    | _ => [.obj fields]
  | .arr items => items.filter isDict
  | _ => []

/-- The wrapper-envelope test, written from the spec words: a wrapping
object contains a nested object with a recognizable event field
(`productType` or `time`). -/
def wrapsEvent (fields : List (String × JsonVal)) : Option (List (String × JsonVal)) :=
  match pyGet fields "data" with
  | some (.obj inner) =>
    if hasKey inner "productType" || hasKey inner "time" then some inner else none
  | _ => none

/-- The extraction step as the spec describes it (for the refinement claim
C9): the nested object for a wrapper, the object itself for a bare object,
each object member of an array, nothing otherwise. -/
def extractEventsSpec : JsonVal → List JsonVal
  | .obj fields =>
    match wrapsEvent fields with
    | some inner => [.obj inner]
    | none => [.obj fields]
  | .arr items => items.filter isDict
  | _ => []

/-! Section: `App.on_ws_event` (radar_downloader.py lines 303–331)

The handler reads and writes `self.dedup` (a dict from identity key to
insertion wall-clock time) and `self.jobs` (a bounded `queue.Queue`).  Both
become the explicit state `AppSt`; the queue is a list with its `maxsize`
passed alongside (the program constructs it with `maxsize=1000`).  The
current wall clock `time.time()` is the parameter `now`.
-/

/-- One download job, `{"productType": ..., "productDate": ...}`. -/
structure Job where
  productType : String
  productDate : Int
deriving DecidableEq

/-- The handler-visible mutable state: the dedup map and the job queue. -/
structure AppSt where
  dedup : List (String × Int)
  jobs : List Job
deriving DecidableEq

/-- Membership `key in self.dedup`. -/
def dedupMember (d : List (String × Int)) (k : String) : Bool :=
  d.any (fun e => e.1 == k)

/-- The identity key `f"{product_type}:{epoch_ms}"`. -/
def identityKey (pt : String) (epochMs : Int) : String :=
  pt ++ ":" ++ toString epochMs

/-- Capacity `queue.Queue(maxsize=1000)` from `App.__init__`. -/
def jobsMaxsize : Nat := 1000

/-- Whether `put_nowait` succeeds: it does unless the queue is bounded and full
(`maxsize <= 0` means unbounded in `queue.Queue`). -/
def putNowaitOk (maxsize qsize : Nat) : Bool :=
  maxsize == 0 || qsize < maxsize

/-- Expression `(ev.get("productType") or ev.get("type") or "").upper().strip()`.
The attribute calls succeed only on a string; a truthy non-string value in
those fields raises `AttributeError`, modelled as the `.error` case. -/
def extractedProductType (ev : List (String × JsonVal)) : Except String String :=
  match jor (jor (pyGetD ev "productType") (pyGetD ev "type")) (.str "") with
  | .str s => .ok (pyStrip (pyUpper s))
  | _ => .error "AttributeError"

/-- The timestamp value chosen by the handler: `ev.get("time")`, falling
back to `ev.get("productDate") or ev.get("timestamp")` when it `is None`. -/
def rawEpoch (ev : List (String × JsonVal)) : JsonVal :=
  match pyGetD ev "time" with
  | .null => jor (pyGetD ev "productDate") (pyGetD ev "timestamp")
  | v => v

/-- Which return path `on_ws_event` took. -/
inductive WsOutcome where
  | invalid
  | notAllowed
  | duplicate
  | enqueued
  | queueFull
deriving DecidableEq

/-- Translation of `App.on_ws_event` (lines 303–331): extract and normalize
the product type, pick the timestamp field, reject non-numeric or empty
values, apply the allowlist, consult and update the dedup map under the
lock, then `put_nowait` the job, dropping it when the queue is full. -/
def on_ws_event (products : List String) (maxsize : Nat) (now : Int)
    (ev : List (String × JsonVal)) (st : AppSt) : Except String (AppSt × WsOutcome) :=
  match extractedProductType ev with
  | .error e => .error e
  | .ok product_type =>
    if product_type = "" ∨ isinstanceNum (rawEpoch ev) = false then .ok (st, .invalid)
    else if product_type ∉ products then .ok (st, .notAllowed)
    else if dedupMember st.dedup (identityKey product_type (pyIntOf (rawEpoch ev))) then
      .ok (st, .duplicate)
    else if putNowaitOk maxsize st.jobs.length then
      .ok (⟨(identityKey product_type (pyIntOf (rawEpoch ev)), now) :: st.dedup,
            st.jobs ++ [⟨product_type, pyIntOf (rawEpoch ev)⟩]⟩, .enqueued)
    else
      .ok (⟨(identityKey product_type (pyIntOf (rawEpoch ev)), now) :: st.dedup, st.jobs⟩,
            .queueFull)

/-! Section: path helpers (radar_downloader.py lines 85–96)

Filesystem paths are modelled as lists of path segments of an absolute
POSIX path (`["downloads", "a.png"]` stands for `/downloads/a.png`, `[]`
for `/`).  The configured output root is taken as such an absolute segment
list, matching `Path.resolve()` making paths absolute; symbolic links are
outside the model, so `resolve()` becomes lexical normalization.
-/

/-- Python `str.split("/")` (note `"".split("/") == [""]`). -/
def splitOnSlash : List Char → List (List Char)
  | [] => [[]]
  | c :: rest =>
    let r := splitOnSlash rest
    if c = '/' then [] :: r
    else
      match r with
      | [] => [[c]]
      | h :: t => (c :: h) :: t

/-- Translation of `ensure_relative_path` (lines 85–88):
`key.lstrip("/")`, then splitting on `/` and keeping only segments other
than `""`, `"."` and `".."`.  The intermediate
`Path(...).as_posix()` round-trip only collapses duplicate slashes and
drops `.` segments, which the filter performs anyway, so the composition
is the filtered split of the stripped key. -/
def ensure_relative_path (key : String) : List String :=
  ((splitOnSlash (key.data.dropWhile (fun c => c = '/'))).map (fun cs => String.mk cs)).filter
    (fun seg => !(seg == "" || seg == "." || seg == ".."))

/-- One step of lexical `Path.resolve()` normalization on the segments of
an absolute path: `.` and empty segments vanish, `..` pops the last
segment (at the filesystem root it is a no-op). -/
def resolveStep (acc : List String) (seg : String) : List String :=
  if seg = "" ∨ seg = "." then acc
  else if seg = ".." then acc.dropLast
  else acc ++ [seg]

/-- Lexical `Path.resolve()` on the segments of an absolute path. -/
def resolveSegs (segs : List String) : List String :=
  segs.foldl resolveStep []

/-- Rendering `str(p)` for the absolute path with these segments. -/
def renderAbsChars : List String → List Char
  | [] => ['/']
  | segs => (segs.map (fun s => '/' :: s.data)).flatten

/-- Rendering `str(p)` as a `String`. -/
def renderAbs (segs : List String) : String := String.mk (renderAbsChars segs)

/-- Python `str.startswith(pre)`. -/
def pyStartsWith (s pre : String) : Bool := pre.data.isPrefixOf s.data

/-- Translation of `safe_join` (lines 91–96): resolve `root / rel` and
`root`, accept when the rendered candidate string starts with the rendered
root string, otherwise `raise ValueError("Unsafe path join detected")`. -/
def safe_join (root rel : List String) : Except String (List String) :=
  let candidate := resolveSegs (root ++ rel)
  let rootR := resolveSegs root
  if pyStartsWith (renderAbs candidate) (renderAbs rootR) then .ok candidate
  else .error "Unsafe path join detected"

/-- Containment: `p` is inside the root (the root path is an ancestor of, or equal to,
`p`), as segment lists. -/
def insideRoot (rootR p : List String) : Prop := rootR <+: p

/-- Strict containment: `p` is inside the root and distinct from it. -/
def strictlyInside (rootR p : List String) : Prop := rootR <+: p ∧ p ≠ rootR

/-! Section: `chunked_download` and `Downloader.process_job` (lines 99–157)

The filesystem is an association list from absolute paths (segment lists)
to the number of bytes stored there; directories and `mkdir(parents=True)`
are not observable through the claims and are left out.  A download attempt
is summarized by its outcome: the HTTP status check failing (before the
temporary file is opened), the stream breaking after some bytes were
written, or the full body of some size arriving.
-/

/-- The filesystem: path ↦ file size in bytes. -/
def FSys : Type := List (List String × Nat)

/-- Size lookup (`exists` / `stat().st_size`). -/
def fsGet : FSys → List String → Option Nat
  | [], _ => none
  | (q, n) :: rest, p => if q = p then some n else fsGet rest p

/-- Dropping every binding of `p`. -/
def fsErase : FSys → List String → FSys
  | [], _ => []
  | (q, n) :: rest, p => if q = p then fsErase rest p else (q, n) :: fsErase rest p

/-- Writing (or truncating and rewriting) the file at `p` to `n` bytes. -/
def fsSet (fs : FSys) (p : List String) (n : Nat) : FSys :=
  (p, n) :: fsErase fs p

/-- Removing the file at `p`. -/
def fsRemove (fs : FSys) (p : List String) : FSys :=
  fsErase fs p

/-- Model of `dest.with_suffix(dest.suffix + ".part")`: the sibling name obtained by
appending `.part` to the final segment. -/
def withPartSuffix : List String → List String
  | [] => []
  | [x] => [x ++ ".part"]
  | x :: rest => x :: withPartSuffix rest

/-- How one `requests.get` stream attempt ends. -/
inductive DlOutcome where
  | httpError
  | streamFail (written : Nat)
  | ok (size : Nat)
deriving DecidableEq

/-- Translation of `chunked_download` (lines 99–108): a failed status check
raises before the temporary file is opened; a mid-stream failure leaves the
bytes written so far in the temporary file and raises; a complete stream
fills the temporary file and `tmp.replace(dest)` renames it onto the
destination.  The boolean records whether the call returned (`true`) or
raised (`false`). -/
def chunked_download (dest : List String) (outcome : DlOutcome) (fs : FSys) : FSys × Bool :=
  let tmp := withPartSuffix dest
  match outcome with
  | .httpError => (fs, false)
  | .streamFail m => (fsSet fs tmp m, false)
  | .ok n => (fsSet (fsRemove (fsSet fs tmp n) tmp) dest n, true)

/-- How `process_job` ends: `malformed` and `pathError` are the raised
`ValueError`s, `transferFailed` the exception propagating out of
`chunked_download`, `skipped` the skip-if-complete early return and
`downloaded` the full success path. -/
inductive JobResult where
  | malformed
  | pathError
  | skipped
  | downloaded
  | transferFailed
deriving DecidableEq

/-- Translation of `Downloader.process_job` (lines 134–157), from the point
where the resolver response `info` has been parsed: `key`/`url` are
`info.get("key")` / `info.get("url")` (absent or empty raises
`ValueError`), the storage key is normalized and joined onto the output
root, an existing non-empty destination is skipped, otherwise the presigned
URL is streamed to disk.  The artifact GET is represented by `outcome`; the
skip path never consults it, which is how the model reads "no network
transfer is performed". -/
def process_job (root : List String) (key url : Option String) (outcome : DlOutcome)
    (fs : FSys) : FSys × JobResult :=
  match key, url with
  | some k, some u =>
    if k = "" ∨ u = "" then (fs, .malformed)
    else
      match safe_join root (ensure_relative_path k) with
      | .error _ => (fs, .pathError)
      | .ok dest =>
        if 0 < (fsGet fs dest).getD 0 then (fs, .skipped)
        else
          match chunked_download dest outcome fs with
          | (fs', true) => (fs', .downloaded)
          | (fs', false) => (fs', .transferFailed)
  | _, _ => (fs, .malformed)

/-! Section: `PureWsClient.run_forever` backoff (lines 236–260)

`backoff` starts at `BACKOFF_MIN`; after every connection attempt the loop
sleeps `backoff` seconds and then doubles it, capped at `BACKOFF_MAX`.  The
float arithmetic involved (`1.0`, doubling, `min` with `30.0`) is exact on
these integer values, so naturals model it faithfully. -/

/-- Constant `BACKOFF_MIN = 1.0` (line 45). -/
def BACKOFF_MIN : Nat := 1

/-- Constant `BACKOFF_MAX = 30.0` (line 46). -/
def BACKOFF_MAX : Nat := 30

/-- Update `backoff = min(backoff * 2, BACKOFF_MAX)` (line 260). -/
def backoffUpdate (b : Nat) : Nat := min (b * 2) BACKOFF_MAX

/-- The value of `backoff` slept after the `(k+1)`-st consecutive
connection failure: `BACKOFF_MIN` before any doubling, then one
`backoffUpdate` per completed failure. -/
def backoffAfterFailures : Nat → Nat
  | 0 => BACKOFF_MIN
  | k + 1 => backoffUpdate (backoffAfterFailures k)

/-! Section: graceful shutdown (lines 121–132 and 333–349)

`App.start` sets the stop flag once the listener returns and then blocks in
`self.jobs.join()`, which returns only when the count of
unfinished tasks in the queue reaches zero.  Each `Downloader.run` loop re-checks
`while not self.stop_event.is_set()` before every dequeue, so once the flag
is observed a worker performs no further iterations.  The state below
tracks the queued jobs and the `unfinished_tasks` counter of the queue during
the drain phase (in-flight jobs are those already dequeued; the scenario
modelled starts after they completed and called `task_done`). -/

/-- The `Downloader.run` loop guard `while not self.stop_event.is_set()`. -/
def workerLoopRuns (stopSet : Bool) : Bool := !stopSet

/-- Queue state seen by `jobs.join()`. -/
structure ShutdownState where
  queue : List Job
  unfinished : Nat
deriving DecidableEq

/-- One attempted iteration of a worker loop: if the guard holds, dequeue
one job (when present), process it and `task_done` it; once the stop flag
is set the guard fails and the body never runs. -/
def workerStep (stopSet : Bool) (st : ShutdownState) : ShutdownState :=
  if workerLoopRuns stopSet then
    match st.queue with
    | [] => st
    | _ :: rest => ⟨rest, st.unfinished - 1⟩
  else st

/-- Predicate for `queue.Queue.join()`: it unblocks exactly when `unfinished_tasks == 0`. -/
def joinReturns (st : ShutdownState) : Bool := st.unfinished == 0

/-! Theorems.

Helper lemmas first, then one theorem per claim (each preceded by its
claim id), with the closed witness and counterexample theorems the claims
require.
-/

theorem fsGet_fsSet_self (fs : FSys) (p : List String) (n : Nat) :
    fsGet (fsSet fs p n) p = some n := by
  simp [fsGet, fsSet]

theorem fsGet_fsErase_ne (fs : FSys) (p q : List String) (h : q ≠ p) :
    fsGet (fsErase fs p) q = fsGet fs q := by
  induction fs with
  | nil => rfl
  | cons e rest ih =>
    obtain ⟨a, b⟩ := e
    by_cases ha : a = p
    · rw [show fsErase ((a, b) :: rest) p = fsErase rest p by simp [fsErase, ha]]
      rw [show fsGet ((a, b) :: rest) q = fsGet rest q by
        simp [fsGet, show a ≠ q from fun hc => h (ha ▸ hc.symm ▸ rfl)]]
      exact ih
    · rw [show fsErase ((a, b) :: rest) p = (a, b) :: fsErase rest p by simp [fsErase, ha]]
      by_cases haq : a = q
      · simp [fsGet, haq]
      · simp [fsGet, haq, ih]

theorem fsGet_fsSet_other (fs : FSys) (p q : List String) (n : Nat) (h : q ≠ p) :
    fsGet (fsSet fs p n) q = fsGet fs q := by
  simp only [fsSet, fsGet, if_neg (fun hc : p = q => h hc.symm)]
  exact fsGet_fsErase_ne fs p q h

theorem fsGet_fsRemove_self (fs : FSys) (p : List String) :
    fsGet (fsRemove fs p) p = none := by
  simp only [fsRemove]
  induction fs with
  | nil => rfl
  | cons e rest ih =>
    obtain ⟨a, b⟩ := e
    by_cases ha : a = p
    · simpa [fsErase, ha] using ih
    · rw [show fsErase ((a, b) :: rest) p = (a, b) :: fsErase rest p by simp [fsErase, ha]]
      simp [fsGet, ha, ih]

theorem append_part_ne (s : String) : s ++ ".part" ≠ s := by
  intro h
  have hl := congrArg String.length h
  rw [String.length_append] at hl
  have h5 : (".part" : String).length = 5 := rfl
  omega

theorem withPartSuffix_ne (dest : List String) (h : dest ≠ []) :
    withPartSuffix dest ≠ dest := by
  induction dest with
  | nil => exact absurd rfl h
  | cons x rest ih =>
    cases rest with
    | nil =>
      simp only [withPartSuffix, ne_eq, List.cons.injEq, and_true]
      exact append_part_ne x
    | cons y t =>
      simp only [withPartSuffix, ne_eq, List.cons.injEq, true_and]
      exact ih (by simp)

/-- C6: for every K >= 1, after K consecutive connection failures the wait
before the next reconnection attempt equals min(1 * 2^(K-1), 30) seconds,
with a floor of 1 second and a cap of 30 seconds. -/
theorem backoff_wait_bounds (K : Nat) (h : 1 ≤ K) :
    backoffAfterFailures (K - 1) = min (1 * 2 ^ (K - 1)) 30 ∧
    BACKOFF_MIN ≤ backoffAfterFailures (K - 1) ∧
    backoffAfterFailures (K - 1) ≤ BACKOFF_MAX := by
  have key : ∀ k, backoffAfterFailures k = min (2 ^ k) 30 := by
    intro k
    induction k with
    | zero => rfl
    | succ k ih =>
      simp only [backoffAfterFailures, backoffUpdate, ih, BACKOFF_MAX]
      rcases le_or_lt (2 ^ k) 30 with hk | hk
      · rw [min_eq_left hk, pow_succ]
      · have hk1 : 30 < 2 ^ (k + 1) :=
          lt_of_lt_of_le hk (Nat.pow_le_pow_right (by norm_num) (Nat.le_succ k))
        omega
  have hpow : 1 ≤ 2 ^ (K - 1) := Nat.one_le_two_pow
  refine ⟨by rw [key, one_mul], ?_, ?_⟩
  · rw [key]; simp only [BACKOFF_MIN]; omega
  · rw [key]; simp only [BACKOFF_MAX]; omega

theorem backoff_wait_bounds_witness :
    backoffAfterFailures (6 - 1) = min (1 * 2 ^ (6 - 1)) 30 ∧
    BACKOFF_MIN ≤ backoffAfterFailures (6 - 1) ∧
    backoffAfterFailures (6 - 1) ≤ BACKOFF_MAX :=
  backoff_wait_bounds 6 (by norm_num)

/-- C4 (code bug evidence): once the stop flag is set, the worker loop
guard fails, so a job still sitting in the queue is never dequeued; the
unfinished-task count stays positive for any number of attempted worker
iterations, and `jobs.join()` in `App.start` therefore never returns. -/
theorem shutdown_queued_job_never_drains :
    ∀ n : Nat,
      (workerStep true)^[n] ⟨[⟨"VMI", 1700000000000⟩], 1⟩ =
        (⟨[⟨"VMI", 1700000000000⟩], 1⟩ : ShutdownState) ∧
      joinReturns ((workerStep true)^[n] ⟨[⟨"VMI", 1700000000000⟩], 1⟩) = false := by
  intro n
  have hfix : workerStep true (⟨[⟨"VMI", 1700000000000⟩], 1⟩ : ShutdownState) =
      ⟨[⟨"VMI", 1700000000000⟩], 1⟩ := rfl
  rw [Function.iterate_fixed hfix]
  exact ⟨rfl, rfl⟩

/-- C3: every download streams into the sibling temporary file named by
appending `.part` to the destination name; the destination receives its
content only through the atomic rename after a complete stream, and an
interrupted stream leaves the destination exactly as it was while the
partial bytes stay in the temporary file. -/
theorem chunked_download_atomic (dest : List String) (fs : FSys) (m n : Nat)
    (hdest : dest ≠ []) :
    chunked_download dest .httpError fs = (fs, false) ∧
    (chunked_download dest (.streamFail m) fs =
        (fsSet fs (withPartSuffix dest) m, false) ∧
      fsGet (chunked_download dest (.streamFail m) fs).1 dest = fsGet fs dest) ∧
    ((chunked_download dest (.ok n) fs).2 = true ∧
      fsGet (chunked_download dest (.ok n) fs).1 dest = some n ∧
      fsGet (chunked_download dest (.ok n) fs).1 (withPartSuffix dest) = none) := by
  have hne : withPartSuffix dest ≠ dest := withPartSuffix_ne dest hdest
  have hne' : dest ≠ withPartSuffix dest := fun hc => hne hc.symm
  refine ⟨rfl, ⟨rfl, ?_⟩, rfl, ?_, ?_⟩
  · exact fsGet_fsSet_other fs (withPartSuffix dest) dest m hne'
  · exact fsGet_fsSet_self _ dest n
  · show fsGet (fsSet (fsRemove (fsSet fs (withPartSuffix dest) n) (withPartSuffix dest))
        dest n) (withPartSuffix dest) = none
    rw [fsGet_fsSet_other _ dest (withPartSuffix dest) n hne]
    exact fsGet_fsRemove_self _ (withPartSuffix dest)

theorem chunked_download_atomic_witness :
    chunked_download ["downloads", "a.png"] .httpError [] = ([], false) ∧
    (chunked_download ["downloads", "a.png"] (.streamFail 5) [] =
        (fsSet [] (withPartSuffix ["downloads", "a.png"]) 5, false) ∧
      fsGet (chunked_download ["downloads", "a.png"] (.streamFail 5) []).1
        ["downloads", "a.png"] = fsGet [] ["downloads", "a.png"]) ∧
    ((chunked_download ["downloads", "a.png"] (.ok 7) []).2 = true ∧
      fsGet (chunked_download ["downloads", "a.png"] (.ok 7) []).1
        ["downloads", "a.png"] = some 7 ∧
      fsGet (chunked_download ["downloads", "a.png"] (.ok 7) []).1
        (withPartSuffix ["downloads", "a.png"]) = none) :=
  chunked_download_atomic ["downloads", "a.png"] [] 5 7 (by decide)

/-- C5: a job whose resolved destination already exists with non-zero size
is skipped: the result does not depend on what the artifact transfer would
have done, the filesystem is unchanged and the job succeeds. -/
theorem skip_existing_nonempty (root : List String) (k u : String)
    (outcome : DlOutcome) (fs : FSys) (dest : List String) (sz : Nat)
    (hk : k ≠ "") (hu : u ≠ "")
    (hjoin : safe_join root (ensure_relative_path k) = .ok dest)
    (hex : fsGet fs dest = some sz) (hsz : 0 < sz) :
    process_job root (some k) (some u) outcome fs = (fs, .skipped) := by
  have hku : ¬(k = "" ∨ u = "") := fun hc => hc.elim (fun h1 => hk h1) (fun h2 => hu h2)
  simp only [process_job, if_neg hku, hjoin]
  rw [if_pos (by rw [hex]; exact hsz)]

theorem skip_existing_nonempty_witness :
    process_job ["downloads"] (some "x/y.png") (some "https://s3") .httpError
      [(["downloads", "x", "y.png"], 9)] = ([(["downloads", "x", "y.png"], 9)], .skipped) :=
  skip_existing_nonempty ["downloads"] "x/y.png" "https://s3" .httpError
    [(["downloads", "x", "y.png"], 9)] ["downloads", "x", "y.png"] 9
    (by decide) (by decide) (by rfl) (by rfl) (by norm_num)

/-- C9: the extraction step yields exactly the nested object for a
wrapper object, the object itself for a bare object, the object members
for an array, and nothing for any other JSON value — the code agrees with
the spec-worded `extractEventsSpec` on every parsed JSON value. -/
theorem extract_events_matches_spec :
    ∀ v : JsonVal, extract_events v = extractEventsSpec v := by
  intro v
  cases v with
  | obj fields =>
    simp only [extract_events, extractEventsSpec, wrapsEvent]
    cases pyGet fields "data" with
    | none => rfl
    | some w =>
      cases w with
      | obj inner =>
        by_cases hk : (hasKey inner "productType" || hasKey inner "time") = true
        · simp [hk]
        · simp [hk]
      | null => rfl
      | bool b => rfl
      | num n => rfl
      | str s => rfl
      | arr items => rfl
  | arr items => rfl
  | null => rfl
  | bool b => rfl
  | num n => rfl
  | str s => rfl

theorem mem_ensure_relative_path (key seg : String)
    (h : seg ∈ ensure_relative_path key) : seg ≠ "" ∧ seg ≠ "." ∧ seg ≠ ".." := by
  have hb := (List.mem_filter.mp h).2
  simp only [Bool.not_eq_true', Bool.or_eq_false_iff, beq_eq_false_iff_ne, ne_eq] at hb
  exact ⟨hb.1.1, hb.1.2, hb.2⟩

theorem foldl_resolveStep_clean (rel : List String) :
    ∀ acc, (∀ s ∈ rel, s ≠ "" ∧ s ≠ "." ∧ s ≠ "..") →
      List.foldl resolveStep acc rel = acc ++ rel := by
  induction rel with
  | nil => intro acc _; simp
  | cons s t ih =>
    intro acc h
    have hs := h s (List.mem_cons_self s t)
    have hstep : resolveStep acc s = acc ++ [s] := by
      simp [resolveStep, hs.1, hs.2.1, hs.2.2]
    rw [List.foldl_cons, hstep, ih (acc ++ [s]) (fun x hx => h x (List.mem_cons_of_mem s hx))]
    simp

theorem resolveSegs_append_clean (root rel : List String)
    (h : ∀ s ∈ rel, s ≠ "" ∧ s ≠ "." ∧ s ≠ "..") :
    resolveSegs (root ++ rel) = resolveSegs root ++ rel := by
  simp only [resolveSegs, List.foldl_append]
  exact foldl_resolveStep_clean rel _ h

theorem renderAbs_startsWith_self_append (a rel : List String) :
    pyStartsWith (renderAbs (a ++ rel)) (renderAbs a) = true := by
  show (renderAbs a).data.isPrefixOf (renderAbs (a ++ rel)).data = true
  rw [ List.isPrefixOf_iff_prefix]
  cases a with
  | nil =>
    cases rel with
    | nil => exact List.prefix_refl _
    | cons r rs =>
      show ['/'] <+: renderAbsChars (r :: rs)
      exact ⟨r.data ++ ((rs.map (fun s => '/' :: s.data)).flatten), rfl⟩
  | cons x xs =>
    cases rel with
    | nil => simp
    | cons r rs =>
      have hsplit : renderAbsChars ((x :: xs) ++ r :: rs) =
          renderAbsChars (x :: xs) ++ renderAbsChars (r :: rs) := by
        show (((x :: xs) ++ r :: rs).map (fun s => '/' :: s.data)).flatten =
          renderAbsChars (x :: xs) ++ renderAbsChars (r :: rs)
        rw [List.map_append, List.flatten_append]
        rfl
      show renderAbsChars (x :: xs) <+: renderAbsChars ((x :: xs) ++ r :: rs)
      rw [hsplit]
      exact List.prefix_append _ _

theorem safe_join_erp (root : List String) (key : String) :
    safe_join root (ensure_relative_path key) =
      .ok (resolveSegs root ++ ensure_relative_path key) := by
  simp only [safe_join,
    resolveSegs_append_clean root _ (fun s hs => mem_ensure_relative_path key s hs),
    renderAbs_startsWith_self_append, if_true]

/-- C10: for every storage key, `ensure_relative_path` produces a relative
path free of empty, `.` and `..` segments, and joining it onto the resolved
output root lands inside the root, so the `ValueError` branch of
`safe_join` is unreachable for such input: the join returns the resolved
root extended by the cleaned segments. -/
theorem ensure_relative_path_never_rejected (root : List String) (key : String) :
    (∀ seg ∈ ensure_relative_path key, seg ≠ "" ∧ seg ≠ "." ∧ seg ≠ "..") ∧
    safe_join root (ensure_relative_path key) =
      .ok (resolveSegs root ++ ensure_relative_path key) := by
  exact ⟨fun seg hs => mem_ensure_relative_path key seg hs, safe_join_erp root key⟩

theorem ensure_relative_path_never_rejected_witness :
    ("etc" ≠ "" ∧ "etc" ≠ "." ∧ "etc" ≠ "..") ∧
    safe_join ["downloads"] (ensure_relative_path "/../etc/passwd") =
      .ok (resolveSegs ["downloads"] ++ ensure_relative_path "/../etc/passwd") :=
  ⟨(ensure_relative_path_never_rejected ["downloads"] "/../etc/passwd").1 "etc" (by decide),
    (ensure_relative_path_never_rejected ["downloads"] "/../etc/passwd").2⟩

theorem withPartSuffix_append (a b : List String) (h : b ≠ []) :
    withPartSuffix (a ++ b) = a ++ withPartSuffix b := by
  induction a with
  | nil => rfl
  | cons x xs ih =>
    cases hxb : xs ++ b with
    | nil => exact absurd (List.append_eq_nil.mp hxb).2 h
    | cons y t =>
      show withPartSuffix (x :: (xs ++ b)) = x :: (xs ++ withPartSuffix b)
      rw [hxb]
      show x :: withPartSuffix (y :: t) = x :: (xs ++ withPartSuffix b)
      rw [← hxb, ih]

/-- C2 counterexample: the storage key `..` normalizes to the empty
relative path, `safe_join` accepts it, and the computed destination is the
output root itself — not strictly inside the root — while its `.part`
sibling is not inside the root at all. -/
theorem dest_equals_root_for_dotdot_key :
    safe_join ["downloads"] (ensure_relative_path "..") = .ok ["downloads"] ∧
    ¬ strictlyInside ["downloads"] ["downloads"] ∧
    ¬ insideRoot ["downloads"] (withPartSuffix ["downloads"]) := by
  refine ⟨rfl, fun hc => hc.2 rfl, fun hc => ?_⟩
  have : ¬ (["downloads"] : List String) <+: ["downloads.part"] := by decide
  exact this hc

/-- C2 (amended): for every storage key whose normalized relative path is
non-empty, the destination computed before any write lies strictly inside
the configured output root, and the `.part` temporary sibling written
during the transfer also lies inside the root; `safe_join` accepts the
candidate, so no write lands outside the root.  (When the normalized path
is empty the destination equals the root itself — see the
counterexample.) -/
theorem path_containment (root : List String) (key : String)
    (h : ensure_relative_path key ≠ []) :
    safe_join root (ensure_relative_path key) =
      .ok (resolveSegs root ++ ensure_relative_path key) ∧
    strictlyInside (resolveSegs root) (resolveSegs root ++ ensure_relative_path key) ∧
    insideRoot (resolveSegs root) (withPartSuffix (resolveSegs root ++ ensure_relative_path key)) := by
  refine ⟨safe_join_erp root key, ⟨List.prefix_append _ _, ?_⟩, ?_⟩
  · intro hc
    have hlen := congrArg List.length hc
    rw [List.length_append] at hlen
    have : ensure_relative_path key ≠ [] := h
    cases hk : ensure_relative_path key with
    | nil => exact this hk
    | cons s t => rw [hk] at hlen; simp at hlen
  · rw [withPartSuffix_append _ _ h]
    exact ⟨withPartSuffix (ensure_relative_path key), rfl⟩

theorem path_containment_witness :
    safe_join ["downloads"] (ensure_relative_path "../../etc/passwd") =
      .ok (resolveSegs ["downloads"] ++ ensure_relative_path "../../etc/passwd") ∧
    strictlyInside (resolveSegs ["downloads"])
      (resolveSegs ["downloads"] ++ ensure_relative_path "../../etc/passwd") ∧
    insideRoot (resolveSegs ["downloads"])
      (withPartSuffix (resolveSegs ["downloads"] ++ ensure_relative_path "../../etc/passwd")) :=
  path_containment ["downloads"] "../../etc/passwd" (by decide)

/-- C1: when a presentation of an event enqueues a job, presenting the same
event again while its identity key is still in the dedup map returns as a
duplicate — same state, no second job, no error — so exactly one job is
placed for that identity key. -/
theorem dedup_second_presentation_duplicate
    (products : List String) (maxsize : Nat) (now₁ now₂ : Int)
    (ev : List (String × JsonVal)) (st st₁ : AppSt)
    (h : on_ws_event products maxsize now₁ ev st = .ok (st₁, .enqueued)) :
    on_ws_event products maxsize now₂ ev st₁ = .ok (st₁, .duplicate) ∧
    st₁.jobs.length = st.jobs.length + 1 := by
  unfold on_ws_event at h ⊢
  cases hpt : extractedProductType ev with
  | error e => rw [hpt] at h; exact Except.noConfusion h
  | ok pt =>
    simp only [hpt] at h ⊢
    by_cases h1 : pt = "" ∨ isinstanceNum (rawEpoch ev) = false
    · rw [if_pos h1] at h; simp at h
    · rw [if_neg h1] at h
      rw [if_neg h1]
      by_cases h2 : pt ∉ products
      · rw [if_pos h2] at h; simp at h
      · rw [if_neg h2] at h
        rw [if_neg h2]
        by_cases h3 : dedupMember st.dedup (identityKey pt (pyIntOf (rawEpoch ev))) = true
        · rw [if_pos h3] at h; simp at h
        · rw [if_neg h3] at h
          by_cases h4 : putNowaitOk maxsize st.jobs.length = true
          · rw [if_pos h4] at h
            have hst : st₁ = (⟨(identityKey pt (pyIntOf (rawEpoch ev)), now₁) :: st.dedup,
                st.jobs ++ [⟨pt, pyIntOf (rawEpoch ev)⟩]⟩ : AppSt) := by
              have hh := h
              simp only [Except.ok.injEq, Prod.mk.injEq] at hh
              exact hh.1.symm
            subst hst
            constructor
            · rw [if_pos (show dedupMember
                ((identityKey pt (pyIntOf (rawEpoch ev)), now₁) :: st.dedup)
                (identityKey pt (pyIntOf (rawEpoch ev))) = true by simp [dedupMember])]
            · simp
          · rw [if_neg h4] at h; simp at h

theorem dedup_second_presentation_duplicate_witness :
    on_ws_event ["VMI"] 1000 9
        [("productType", JsonVal.str "VMI"), ("time", JsonVal.num 1700000000000)]
        ⟨[("VMI:1700000000000", 3)], [⟨"VMI", 1700000000000⟩]⟩ =
      .ok (⟨[("VMI:1700000000000", 3)], [⟨"VMI", 1700000000000⟩]⟩, .duplicate) ∧
    (⟨[("VMI:1700000000000", 3)], [⟨"VMI", 1700000000000⟩]⟩ : AppSt).jobs.length =
      (⟨[], []⟩ : AppSt).jobs.length + 1 :=
  dedup_second_presentation_duplicate ["VMI"] 1000 3 9
    [("productType", JsonVal.str "VMI"), ("time", JsonVal.num 1700000000000)]
    ⟨[], []⟩ ⟨[("VMI:1700000000000", 3)], [⟨"VMI", 1700000000000⟩]⟩ (by rfl)

/-- C7: an event that passes validation, the allowlist and the dedup check
while the queue is full is dropped without blocking: the state keeps its
jobs unchanged, the dedup entry for the identity key is recorded anyway,
and a later presentation of the same event is dropped as a duplicate. -/
theorem queue_full_drops_but_records
    (products : List String) (maxsize : Nat) (now now₂ : Int)
    (ev : List (String × JsonVal)) (st : AppSt) (pt : String)
    (hpt : extractedProductType ev = .ok pt)
    (hne : pt ≠ "") (hnum : isinstanceNum (rawEpoch ev) = true)
    (hmem : pt ∈ products)
    (hkey : dedupMember st.dedup (identityKey pt (pyIntOf (rawEpoch ev))) = false)
    (hfull : putNowaitOk maxsize st.jobs.length = false) :
    on_ws_event products maxsize now ev st =
      .ok (⟨(identityKey pt (pyIntOf (rawEpoch ev)), now) :: st.dedup, st.jobs⟩, .queueFull) ∧
    on_ws_event products maxsize now₂ ev
        ⟨(identityKey pt (pyIntOf (rawEpoch ev)), now) :: st.dedup, st.jobs⟩ =
      .ok (⟨(identityKey pt (pyIntOf (rawEpoch ev)), now) :: st.dedup, st.jobs⟩, .duplicate) := by
  have h1 : ¬(pt = "" ∨ isinstanceNum (rawEpoch ev) = false) := by simp [hne, hnum]
  have h2 : ¬(pt ∉ products) := not_not_intro hmem
  unfold on_ws_event
  simp only [hpt]
  constructor
  · rw [if_neg h1, if_neg h2, if_neg (by simp [hkey]), if_neg (by simp [hfull])]
  · rw [if_neg h1, if_neg h2, if_pos (by simp [dedupMember])]

theorem queue_full_drops_but_records_witness :
    on_ws_event ["VMI"] 1 5 [("productType", JsonVal.str "VMI"), ("time", JsonVal.num 2)]
        ⟨[], [⟨"VMI", 0⟩]⟩ =
      .ok (⟨[("VMI:2", 5)], [⟨"VMI", 0⟩]⟩, .queueFull) ∧
    on_ws_event ["VMI"] 1 6 [("productType", JsonVal.str "VMI"), ("time", JsonVal.num 2)]
        ⟨[("VMI:2", 5)], [⟨"VMI", 0⟩]⟩ =
      .ok (⟨[("VMI:2", 5)], [⟨"VMI", 0⟩]⟩, .duplicate) :=
  queue_full_drops_but_records ["VMI"] 1 5 6
    [("productType", JsonVal.str "VMI"), ("time", JsonVal.num 2)]
    ⟨[], [⟨"VMI", 0⟩]⟩ "VMI" rfl (by decide) rfl (by decide) rfl rfl

/-- C8 counterexample: the event with a boolean `time` field is accepted
and enqueued (Python `isinstance(x, (int, float))` admits booleans and
`int(True) == 1`), although its extracted timestamp is not a JSON
number. -/
theorem boolean_timestamp_accepted :
    on_ws_event ["VMI"] 1000 0
        [("productType", JsonVal.str "VMI"), ("time", JsonVal.bool true)] ⟨[], []⟩ =
      .ok (⟨[("VMI:1", 0)], [⟨"VMI", 1⟩]⟩, .enqueued) ∧
    isJsonNumber (rawEpoch
      [("productType", JsonVal.str "VMI"), ("time", JsonVal.bool true)]) = false :=
  ⟨rfl, rfl⟩

/-- C8 (amended): when the product-type extraction succeeds, an event
whose extracted product type is empty or whose chosen timestamp fails the
numeric check is discarded with no side effect (state unchanged, outcome
`invalid`, no exception), and conversely any event that proceeds past
validation has a non-empty product type and a timestamp passing the
numeric check — which, in Python, admits integers, floats and also
booleans. -/
theorem ws_event_validation
    (products : List String) (maxsize : Nat) (now : Int)
    (ev : List (String × JsonVal)) (st : AppSt) :
    (∀ pt, extractedProductType ev = .ok pt →
        pt = "" ∨ isinstanceNum (rawEpoch ev) = false →
        on_ws_event products maxsize now ev st = .ok (st, .invalid)) ∧
    (∀ st' o, on_ws_event products maxsize now ev st = .ok (st', o) → o ≠ .invalid →
        ∃ pt, extractedProductType ev = .ok pt ∧ pt ≠ "" ∧
          isinstanceNum (rawEpoch ev) = true) := by
  constructor
  · intro pt hpt hbad
    unfold on_ws_event
    simp only [hpt]
    rw [if_pos hbad]
  · intro st' o h hne
    unfold on_ws_event at h
    cases hpt : extractedProductType ev with
    | error e => rw [hpt] at h; exact Except.noConfusion h
    | ok pt =>
      simp only [hpt] at h
      by_cases h1 : pt = "" ∨ isinstanceNum (rawEpoch ev) = false
      · rw [if_pos h1] at h
        have ho : o = .invalid := by
          simp only [Except.ok.injEq, Prod.mk.injEq] at h
          exact h.2.symm
        exact absurd ho hne
      · push_neg at h1
        refine ⟨pt, rfl, h1.1, ?_⟩
        cases hb : isinstanceNum (rawEpoch ev) with
        | false => exact absurd hb h1.2
        | true => rfl

theorem ws_event_validation_witness :
    on_ws_event ["VMI"] 1000 0 [("productType", JsonVal.str "VMI")] ⟨[], []⟩ =
      .ok (⟨[], []⟩, .invalid) ∧
    ∃ pt, extractedProductType
        [("productType", JsonVal.str "VMI"), ("time", JsonVal.num 2)] = .ok pt ∧
      pt ≠ "" ∧
      isinstanceNum (rawEpoch
        [("productType", JsonVal.str "VMI"), ("time", JsonVal.num 2)]) = true :=
  ⟨(ws_event_validation ["VMI"] 1000 0 [("productType", JsonVal.str "VMI")] ⟨[], []⟩).1
      "VMI" rfl (Or.inr rfl),
    (ws_event_validation ["VMI"] 1000 0
        [("productType", JsonVal.str "VMI"), ("time", JsonVal.num 2)] ⟨[], []⟩).2
      ⟨[("VMI:2", 0)], [⟨"VMI", 2⟩]⟩ .enqueued rfl (by decide)⟩

end RadarDownloader
